import Mathlib

/-!
Verification of the Gumbel-copula sample generator of
`code/fig_tail_dependence.py` (`gumbel_copula_sample`).

Floating-point values are modelled by `FVal`: a finite rational payload or
one of the IEEE non-finite values NaN, +Inf, -Inf.  The transcendental
routines (`np.sin`, `np.cos`, `np.tan`, `np.exp`, `**`) are not exactly
computable on rationals, so every definition is parameterised by a table
`Transcendentals` of these five functions; the rational field operations
carry IEEE-style NaN/Inf propagation.  Random draws (`np.random.uniform`,
`np.random.exponential`) are modelled as explicit streams `Nat → FVal`;
`np.random.seed` is modelled by a map from seeds to such streams.
-/

/-- A floating-point value: a finite rational, NaN, +Inf or -Inf. -/
inductive FVal where
  | fin (q : ℚ)
  | nan
  | inf
  | ninf
deriving DecidableEq

namespace FVal

/-- `np.isfinite`. -/
def isFinite : FVal → Bool
  | .fin _ => true
  | _ => false

/-- IEEE negation. -/
def neg : FVal → FVal
  | .fin q => .fin (-q)
  | .nan => .nan
  | .inf => .ninf
  | .ninf => .inf

/-- IEEE subtraction (signed zeros ignored). -/
def sub : FVal → FVal → FVal
  | .nan, _ => .nan
  | _, .nan => .nan
  | .fin a, .fin b => .fin (a - b)
  | .inf, .inf => .nan
  | .inf, _ => .inf
  | .ninf, .ninf => .nan
  | .ninf, _ => .ninf
  | .fin _, .inf => .ninf
  | .fin _, .ninf => .inf

/-- IEEE multiplication (signed zeros ignored). -/
def mul : FVal → FVal → FVal
  | .nan, _ => .nan
  | _, .nan => .nan
  | .fin a, .fin b => .fin (a * b)
  | .inf, .fin b => if b = 0 then .nan else if 0 < b then .inf else .ninf
  | .fin a, .inf => if a = 0 then .nan else if 0 < a then .inf else .ninf
  | .ninf, .fin b => if b = 0 then .nan else if 0 < b then .ninf else .inf
  | .fin a, .ninf => if a = 0 then .nan else if 0 < a then .ninf else .inf
  | .inf, .inf => .inf
  | .inf, .ninf => .ninf
  | .ninf, .inf => .ninf
  | .ninf, .ninf => .inf

/-- IEEE division under `np.errstate(divide=ignore)` (signed zeros ignored:
a finite value divided by zero is sent to +Inf or -Inf by the sign of the
numerator, 0/0 to NaN). -/
def div : FVal → FVal → FVal
  | .nan, _ => .nan
  | _, .nan => .nan
  | .fin a, .fin b =>
      if b = 0 then (if a = 0 then .nan else if 0 < a then .inf else .ninf)
      else .fin (a / b)
  | .fin _, .inf => .fin 0
  | .fin _, .ninf => .fin 0
  | .inf, .fin b => if 0 ≤ b then .inf else .ninf
  | .ninf, .fin b => if 0 ≤ b then .ninf else .inf
  | .inf, _ => .nan
  | .ninf, _ => .nan

/-- IEEE equality test `==` (NaN compares unequal to everything, itself
included). -/
def beq : FVal → FVal → Bool
  | .fin a, .fin b => decide (a = b)
  | .inf, .inf => true
  | .ninf, .ninf => true
  | _, _ => false

/-- IEEE strict less-than (any comparison with NaN is false). -/
def ltb : FVal → FVal → Bool
  | .nan, _ => false
  | _, .nan => false
  | .fin a, .fin b => decide (a < b)
  | .ninf, .ninf => false
  | .ninf, _ => true
  | .fin _, .inf => true
  | .fin _, .ninf => false
  | .inf, _ => false

end FVal

/-- The table of transcendental floating-point routines the script uses
(`np.sin`, `np.cos`, `np.tan`, `np.exp` and the binary power `**`).  Their
float implementations are treated as abstract function tables; every theorem
below holds for an arbitrary table. -/
structure Transcendentals where
  sin : FVal → FVal
  cos : FVal → FVal
  tan : FVal → FVal
  exp : FVal → FVal
  pow : FVal → FVal → FVal

/-- Errors numpy can raise in the modelled fragment: `np.random.uniform`
(and the other draw routines) raise `ValueError` on a negative size. -/
inductive NumpyError where
  | negativeDimension
deriving DecidableEq

/-- `int(n * 1.5)` (line 48): `n * 1.5` is exact in binary floating point
for every `|n| < 2^52` and `int` truncates toward zero, as does `Int.div`. -/
def n_sample (n : ℤ) : ℤ := Int.tdiv (3 * n) 2

/-- A vector of `m` consecutive draws from the stream `s`
(`np.random.uniform(..., m)` / `np.random.exponential(1, m)`). -/
def drawL (s : ℕ → FVal) (m : ℕ) : List FVal := (List.range m).map s

/-- Lines 57-58: the Chambers-Mallows-Stuck expression for one candidate,
`(sin(a*W1) / cos(W1)**(1/a)) * (cos(W1 - a*W1) / W2) ** ((1-a)/a)`. -/
def cmsV (t : Transcendentals) (a w1 w2 : FVal) : FVal :=
  FVal.mul
    (FVal.div (t.sin (FVal.mul a w1)) (t.pow (t.cos w1) (FVal.div (FVal.fin 1) a)))
    (t.pow (FVal.div (t.cos (FVal.sub w1 (FVal.mul a w1))) w2)
      (FVal.div (FVal.sub (FVal.fin 1) a) a))

/-- Lines 53-58: the stable-variate array `V`; the Cauchy branch
`V = np.tan(W1)` when `alpha_stable == 1`, the CMS branch otherwise. -/
def stableVs (t : Transcendentals) (a : FVal) (W1 W2 : List FVal) : List FVal :=
  if FVal.beq a (FVal.fin 1) then W1.map t.tan
  else (W1.zip W2).map fun p => cmsV t a p.1 p.2

/-- Line 66/67 elementwise: `np.exp(-(e / v) ** (1/theta))`. -/
def copulaU (t : Transcendentals) (theta v e : FVal) : FVal :=
  t.exp (FVal.neg (t.pow (FVal.div e v) (FVal.div (FVal.fin 1) theta)))

/-- Lines 66-67: the candidate coordinate array built from the exponential
array `E` and the shared stable array `V`. -/
def copulaUs (t : Transcendentals) (theta : FVal) (V E : List FVal) : List FVal :=
  (E.zip V).map fun p => copulaU t theta p.2 p.1

/-- Line 70, per pair: `np.isfinite(U1) & np.isfinite(U2) & (U1 > 0) &
(U1 < 1) & (U2 > 0) & (U2 < 1)`. -/
def validPair (u1 u2 : FVal) : Bool :=
  u1.isFinite && u2.isFinite &&
    FVal.ltb (FVal.fin 0) u1 && FVal.ltb u1 (FVal.fin 1) &&
    FVal.ltb (FVal.fin 0) u2 && FVal.ltb u2 (FVal.fin 1)

/-- Line 70: the elementwise boolean mask `valid`. -/
def validMask (U1 U2 : List FVal) : List Bool :=
  (U1.zip U2).map fun p => validPair p.1 p.2

/-- Boolean-mask indexing `xs[mask]`. -/
def maskFilter (mask : List Bool) (xs : List FVal) : List FVal :=
  (mask.zip xs).filterMap fun p => if p.1 then some p.2 else none

/-- Lines 70-73: `U1, U2 = U1[valid][:n], U2[valid][:n]` followed by
`np.column_stack([U1, U2])` (a list of rows, each row a pair). -/
def gumbelFilter (n : ℕ) (U1 U2 : List FVal) : List (FVal × FVal) :=
  let mask := validMask U1 U2
  ((maskFilter mask U1).take n).zip ((maskFilter mask U2).take n)

/-- Lines 24-73, `gumbel_copula_sample(n, theta)`.  The four random draws
are explicit streams; `np.random.uniform` raises `ValueError` when the
requested size `int(n * 1.5)` is negative.  Line 45's scalar division
`1.0 / theta` is rendered here with the non-raising `FVal.div` (adequate
for every `theta` other than exactly 0.0); `gumbel_copula_run` below
restores the `ZeroDivisionError` that plain Python scalar division raises
at `theta = 0.0`. -/
def gumbel_copula_sample (t : Transcendentals)
    (W1s W2s E1s E2s : ℕ → FVal) (n : ℤ) (theta : FVal) :
    Except NumpyError (List (FVal × FVal)) :=
  let alpha_stable := FVal.div (FVal.fin 1) theta
  let ns : ℤ := n_sample n
  if ns < 0 then .error .negativeDimension
  else
    let m := ns.toNat
    let W1 := drawL W1s m
    let W2 := drawL W2s m
    let V := stableVs t alpha_stable W1 W2
    let E1 := drawL E1s m
    let E2 := drawL E2s m
    let U1 := copulaUs t theta V E1
    let U2 := copulaUs t theta V E2
    .ok (gumbelFilter n.toNat U1 U2)

/-- The errors a full call can raise: line 45's plain Python scalar
division `1.0 / theta` sits outside every `np.errstate` block (and
`errstate` governs only numpy array operations anyway), so it raises
`ZeroDivisionError` when `theta` equals 0.0; the draw call at line 50
raises `ValueError` on a negative size. -/
inductive PyError where
  | zeroDivision
  | negativeDimension
deriving DecidableEq

/-- Lines 24-73 with line 45 modelled fallibly: `alpha_stable = 1.0 /
theta` raises `ZeroDivisionError` at `theta = 0.0` before anything is
drawn (line 45 executes before the `int(n * 1.5)` draw of line 48-50);
for every other `theta` the call proceeds exactly as
`gumbel_copula_sample`. -/
def gumbel_copula_run (t : Transcendentals)
    (W1s W2s E1s E2s : ℕ → FVal) (n : ℤ) (theta : FVal) :
    Except PyError (List (FVal × FVal)) :=
  if FVal.beq theta (FVal.fin 0) then .error .zeroDivision
  else
    match gumbel_copula_sample t W1s W2s E1s E2s n theta with
    | .ok l => .ok l
    | .error .negativeDimension => .error .negativeDimension

/-- The seeded generator: `np.random.seed(seed)` makes the whole draw
sequence a function of the seed alone; `streams` maps a seed to the four
draw streams the call consumes. -/
def seeded_copula_sample (t : Transcendentals)
    (streams : ℕ → (ℕ → FVal) × (ℕ → FVal) × (ℕ → FVal) × (ℕ → FVal))
    (seed : ℕ) (n : ℤ) (theta : FVal) : Except NumpyError (List (FVal × FVal)) :=
  gumbel_copula_sample t (streams seed).1 (streams seed).2.1
    (streams seed).2.2.1 (streams seed).2.2.2 n theta

/-- A concrete transcendental-function table, used to evaluate the
table-generic theorems on concrete inputs. -/
def tableA : Transcendentals :=
  { sin := id, cos := id, tan := id, exp := id, pow := fun a _ => a }

/-- A concrete constant draw stream for instantiating theorems. -/
def constOnes : ℕ → FVal := fun _ => FVal.fin 1

/-- A concrete seed-to-streams map for instantiating the seeded generator. -/
def constStreams : ℕ → (ℕ → FVal) × (ℕ → FVal) × (ℕ → FVal) × (ℕ → FVal) :=
  fun _ => (constOnes, constOnes, constOnes, constOnes)

/-- The CMS transform exactly as the spec (section 4.1) words it:
`V = [sin(a*W1) / cos(W1)^(1/a)] * [cos(W1 - a*W1) / W2]^((1-a)/a)`.
Kept separate from `cmsV` (which is read off the source) so the two can be
compared. -/
def cmsV_spec (t : Transcendentals) (a w1 w2 : FVal) : FVal :=
  FVal.mul
    (FVal.div (t.sin (FVal.mul a w1)) (t.pow (t.cos w1) (FVal.div (FVal.fin 1) a)))
    (t.pow (FVal.div (t.cos (FVal.sub w1 (FVal.mul a w1))) w2)
      (FVal.div (FVal.sub (FVal.fin 1) a) a))

/-- The uniform candidate transform exactly as the spec (section 4.2) words
it: `U_i = exp(-(E_i / V)^(1/theta))`. -/
def copulaU_spec (t : Transcendentals) (theta v e : FVal) : FVal :=
  t.exp (FVal.neg (t.pow (FVal.div e v) (FVal.div (FVal.fin 1) theta)))

/-- The rational one half, in normal form (witness inputs avoid `ℚ`
division so that they reduce by `decide`). -/
def half : ℚ := ⟨1, 2, by decide, by decide⟩

/-- The rational one fifth, in normal form. -/
def fifth : ℚ := ⟨1, 5, by decide, by decide⟩

/-- A second concrete table whose `exp` slot sends `x` to `1/(1-x)` (so a
negative argument lands strictly inside `(0,1)` and NaN propagates),
exercising the validity filter on a run with both valid and invalid
candidates. -/
def tableB : Transcendentals :=
  { sin := id, cos := id, tan := id,
    exp := fun x => FVal.div (FVal.fin 1) (FVal.sub (FVal.fin 1) x),
    pow := fun a _ => a }

/-- An exponential-draw stream whose first value is finite and whose later
values are NaN (the degenerate draws the spec's section 3 describes). -/
def nanAfterFirst : ℕ → FVal := fun i => if i = 0 then FVal.fin 1 else FVal.nan

/-- The rows of a non-error result (`[]` for an error), used to state
concrete evaluations without a `DecidableEq` instance on `Except`. -/
def rowsOf : Except NumpyError (List (FVal × FVal)) → List (FVal × FVal)
  | .ok l => l
  | .error _ => []

/-! ## Helper lemmas -/

theorem n_sample_neg_iff (n : ℤ) : n_sample n < 0 ↔ n < 0 := by
  unfold n_sample
  constructor
  · intro h
    by_contra hn
    push_neg at hn
    have h0 : (0 : ℤ) ≤ Int.tdiv (3 * n) 2 := by
      apply Int.tdiv_nonneg <;> omega
    omega
  · intro h
    have h2 : Int.tdiv (3 * n) 2 = - Int.tdiv (-(3 * n)) 2 := by
      rw [← Int.neg_tdiv, neg_neg]
    have h3 : Int.tdiv (-(3 * n)) 2 = (-(3 * n)) / 2 := by
      apply Int.tdiv_eq_ediv <;> omega
    omega

theorem maskFilter_nil_left (xs : List FVal) : maskFilter [] xs = [] := rfl

theorem maskFilter_cons (v : Bool) (vs : List Bool) (x : FVal) (xs : List FVal) :
    maskFilter (v :: vs) (x :: xs) =
      if v then x :: maskFilter vs xs else maskFilter vs xs := by
  cases v <;> simp [maskFilter, List.filterMap_cons]

theorem validMask_cons (a b : FVal) (as bs : List FVal) :
    validMask (a :: as) (b :: bs) = validPair a b :: validMask as bs := rfl

theorem take_zip_take {α β : Type} :
    ∀ (n : ℕ) (xs : List α) (ys : List β),
      (xs.take n).zip (ys.take n) = (xs.zip ys).take n
  | 0, _, _ => by simp
  | _ + 1, [], _ => by simp
  | _ + 1, _ :: _, [] => by simp
  | n + 1, x :: xs, y :: ys => by
      simp [List.take_succ_cons, take_zip_take n xs ys]

theorem maskFilter_zip :
    ∀ (U1 U2 : List FVal), U1.length = U2.length →
      (maskFilter (validMask U1 U2) U1).zip (maskFilter (validMask U1 U2) U2)
        = (U1.zip U2).filter fun p => validPair p.1 p.2
  | [], [], _ => rfl
  | a :: as, b :: bs, h => by
      have ih := maskFilter_zip as bs (by simpa using h)
      by_cases hv : validPair a b
      · simp [validMask_cons, maskFilter_cons, hv, List.filter_cons, ih]
      · simp [validMask_cons, maskFilter_cons, hv, List.filter_cons, ih]

theorem gumbelFilter_eq_filter_take (n : ℕ) (U1 U2 : List FVal)
    (h : U1.length = U2.length) :
    gumbelFilter n U1 U2 =
      ((U1.zip U2).filter fun p => validPair p.1 p.2).take n := by
  unfold gumbelFilter
  rw [take_zip_take, maskFilter_zip U1 U2 h]

theorem length_drawL (s : ℕ → FVal) (m : ℕ) : (drawL s m).length = m := by
  simp [drawL]

theorem length_stableVs (t : Transcendentals) (a : FVal) (W1 W2 : List FVal)
    (h : W1.length = W2.length) : (stableVs t a W1 W2).length = W1.length := by
  unfold stableVs
  split <;> simp [h]

theorem length_copulaUs (t : Transcendentals) (theta : FVal) (V E : List FVal)
    (h : E.length = V.length) : (copulaUs t theta V E).length = E.length := by
  simp [copulaUs, h]

theorem count_true_validMask :
    ∀ (U1 U2 : List FVal),
      (validMask U1 U2).count true
        = (U1.zip U2).countP fun p => validPair p.1 p.2
  | [], _ => rfl
  | _ :: _, [] => rfl
  | a :: as, b :: bs => by
      by_cases hv : validPair a b <;>
        simp [validMask_cons, List.count_cons, List.countP_cons, hv,
          count_true_validMask as bs]

theorem stableVs_nil (t : Transcendentals) (a : FVal) (W2 : List FVal) :
    stableVs t a [] W2 = [] := by
  unfold stableVs
  split <;> simp

/-- The generator on a nonnegative request: no error, and the returned rows
are the filtered truncation of the candidate arrays built from the four
draw vectors of length `int(n * 1.5)`. -/
theorem gumbel_ok (t : Transcendentals) (W1s W2s E1s E2s : ℕ → FVal)
    (n : ℤ) (theta : FVal) (h : 0 ≤ n) :
    gumbel_copula_sample t W1s W2s E1s E2s n theta =
      .ok (gumbelFilter n.toNat
        (copulaUs t theta
          (stableVs t (FVal.div (FVal.fin 1) theta)
            (drawL W1s (n_sample n).toNat) (drawL W2s (n_sample n).toNat))
          (drawL E1s (n_sample n).toNat))
        (copulaUs t theta
          (stableVs t (FVal.div (FVal.fin 1) theta)
            (drawL W1s (n_sample n).toNat) (drawL W2s (n_sample n).toNat))
          (drawL E2s (n_sample n).toNat))) := by
  have hns : ¬ n_sample n < 0 := by
    rw [n_sample_neg_iff]
    omega
  simp [gumbel_copula_sample, hns]

theorem get?_drawL (s : ℕ → FVal) (m i : ℕ) (hi : i < m) :
    (drawL s m).get? i = some (s i) := by
  rw [drawL, List.get?_map, List.get?_range hi]
  rfl

theorem copulaUs_get? (t : Transcendentals) (theta : FVal) (V E : List FVal)
    (i : ℕ) (e v : FVal) (hE : E.get? i = some e) (hV : V.get? i = some v) :
    (copulaUs t theta V E).get? i
      = some (t.exp (FVal.neg (t.pow (FVal.div e v)
          (FVal.div (FVal.fin 1) theta)))) := by
  rw [copulaUs, List.get?_map, (List.get?_zip_eq_some E V (e, v) i).mpr ⟨hE, hV⟩]
  rfl

/-! ## Claims -/

/-- C1 (code bug): the generator is documented to return a batch of shape
`(n, 2)` or raise, but lines 71-73 slice the filtered candidates to
`[:n]` without checking that at least `n` valid candidates survive: on a
run whose `int(n * 1.5)` candidates contain fewer than `n` valid pairs it
silently returns a shorter batch.  Here `n = 2`, three candidates are
drawn, exactly one survives the validity filter, and the call returns one
row and no error. -/
theorem C1_silent_truncation :
    (gumbel_copula_sample tableB constOnes constOnes nanAfterFirst constOnes
      2 (FVal.fin 2)).isOk = true ∧
    rowsOf (gumbel_copula_sample tableB constOnes constOnes nanAfterFirst constOnes
      2 (FVal.fin 2)) = [(FVal.fin fifth, FVal.fin fifth)] ∧
    (rowsOf (gumbel_copula_sample tableB constOnes constOnes nanAfterFirst constOnes
      2 (FVal.fin 2))).length < 2 := by
  refine ⟨by decide, by with_unfolding_all decide, by with_unfolding_all decide⟩

/-- C2: every pair in the returned batch has both coordinates finite and
strictly inside `(0,1)`, and the boolean-mask filter of line 70-71 keeps a
candidate pair exactly when both coordinates are finite and strictly
inside `(0,1)`. -/
theorem C2_validity (n : ℕ) (U1 U2 : List FVal) (h : U1.length = U2.length) :
    (∀ p ∈ gumbelFilter n U1 U2,
      p.1.isFinite = true ∧ p.2.isFinite = true ∧
      FVal.ltb (FVal.fin 0) p.1 = true ∧ FVal.ltb p.1 (FVal.fin 1) = true ∧
      FVal.ltb (FVal.fin 0) p.2 = true ∧ FVal.ltb p.2 (FVal.fin 1) = true) ∧
    (∀ p : FVal × FVal,
      p ∈ (maskFilter (validMask U1 U2) U1).zip (maskFilter (validMask U1 U2) U2) ↔
        p ∈ U1.zip U2 ∧ validPair p.1 p.2 = true) := by
  constructor
  · intro p hp
    rw [gumbelFilter_eq_filter_take n U1 U2 h] at hp
    have hp2 := List.mem_of_mem_take hp
    have hv := (List.mem_filter.mp hp2).2
    simp only [validPair, Bool.and_eq_true] at hv
    tauto
  · intro p
    rw [maskFilter_zip U1 U2 h, List.mem_filter]

theorem C2_witness :
    ([FVal.fin half, FVal.nan] : List FVal).length
      = ([FVal.fin half, FVal.fin half] : List FVal).length ∧
    ((FVal.fin half).isFinite = true ∧ (FVal.fin half).isFinite = true ∧
      FVal.ltb (FVal.fin 0) (FVal.fin half) = true ∧
      FVal.ltb (FVal.fin half) (FVal.fin 1) = true ∧
      FVal.ltb (FVal.fin 0) (FVal.fin half) = true ∧
      FVal.ltb (FVal.fin half) (FVal.fin 1) = true) :=
  ⟨by decide,
    (C2_validity 1 [FVal.fin half, FVal.nan] [FVal.fin half, FVal.fin half]
      (by decide)).1 (FVal.fin half, FVal.fin half) (by decide)⟩

/-- C3: inside a successful run, candidate coordinate `i` of each margin
equals `exp(-(E_i / V)^(1/theta))` where the two margins read the SAME
stable value `V i`, and the generator returns exactly the filtered
truncation of these two candidate arrays. -/
theorem C3_candidate_formula (t : Transcendentals)
    (W1s W2s E1s E2s : ℕ → FVal) (n : ℤ) (theta : FVal) (h : 0 ≤ n)
    (i : ℕ) (hi : i < (n_sample n).toNat) :
    ∃ v,
      (stableVs t (FVal.div (FVal.fin 1) theta)
          (drawL W1s (n_sample n).toNat) (drawL W2s (n_sample n).toNat)).get? i
        = some v ∧
      (copulaUs t theta
          (stableVs t (FVal.div (FVal.fin 1) theta)
            (drawL W1s (n_sample n).toNat) (drawL W2s (n_sample n).toNat))
          (drawL E1s (n_sample n).toNat)).get? i
        = some (t.exp (FVal.neg (t.pow (FVal.div (E1s i) v)
            (FVal.div (FVal.fin 1) theta)))) ∧
      (copulaUs t theta
          (stableVs t (FVal.div (FVal.fin 1) theta)
            (drawL W1s (n_sample n).toNat) (drawL W2s (n_sample n).toNat))
          (drawL E2s (n_sample n).toNat)).get? i
        = some (t.exp (FVal.neg (t.pow (FVal.div (E2s i) v)
            (FVal.div (FVal.fin 1) theta)))) ∧
      gumbel_copula_sample t W1s W2s E1s E2s n theta
        = .ok (gumbelFilter n.toNat
            (copulaUs t theta
              (stableVs t (FVal.div (FVal.fin 1) theta)
                (drawL W1s (n_sample n).toNat) (drawL W2s (n_sample n).toNat))
              (drawL E1s (n_sample n).toNat))
            (copulaUs t theta
              (stableVs t (FVal.div (FVal.fin 1) theta)
                (drawL W1s (n_sample n).toNat) (drawL W2s (n_sample n).toNat))
              (drawL E2s (n_sample n).toNat))) := by
  have hlenV : (stableVs t (FVal.div (FVal.fin 1) theta)
      (drawL W1s (n_sample n).toNat) (drawL W2s (n_sample n).toNat)).length
      = (n_sample n).toNat := by
    rw [length_stableVs t (FVal.div (FVal.fin 1) theta) _ _
      (by rw [length_drawL, length_drawL]), length_drawL]
  have hiV : i < (stableVs t (FVal.div (FVal.fin 1) theta)
      (drawL W1s (n_sample n).toNat) (drawL W2s (n_sample n).toNat)).length := by
    rw [hlenV]; exact hi
  have hv : (stableVs t (FVal.div (FVal.fin 1) theta)
      (drawL W1s (n_sample n).toNat) (drawL W2s (n_sample n).toNat)).get? i
      = some ((stableVs t (FVal.div (FVal.fin 1) theta)
          (drawL W1s (n_sample n).toNat) (drawL W2s (n_sample n).toNat)).get
            ⟨i, hiV⟩) :=
    List.get?_eq_get hiV
  exact ⟨(stableVs t (FVal.div (FVal.fin 1) theta)
      (drawL W1s (n_sample n).toNat) (drawL W2s (n_sample n).toNat)).get ⟨i, hiV⟩,
    hv,
    copulaUs_get? t theta _ _ i _ _ (get?_drawL E1s _ i hi) hv,
    copulaUs_get? t theta _ _ i _ _ (get?_drawL E2s _ i hi) hv,
    gumbel_ok t W1s W2s E1s E2s n theta h⟩

theorem C3_witness :
    (0 : ℤ) ≤ 2 ∧ 0 < (n_sample 2).toNat ∧
    (∃ v,
      (stableVs tableA (FVal.div (FVal.fin 1) (FVal.fin 2))
          (drawL constOnes (n_sample 2).toNat) (drawL constOnes (n_sample 2).toNat)).get? 0
        = some v ∧
      (copulaUs tableA (FVal.fin 2)
          (stableVs tableA (FVal.div (FVal.fin 1) (FVal.fin 2))
            (drawL constOnes (n_sample 2).toNat) (drawL constOnes (n_sample 2).toNat))
          (drawL constOnes (n_sample 2).toNat)).get? 0
        = some (tableA.exp (FVal.neg (tableA.pow (FVal.div (constOnes 0) v)
            (FVal.div (FVal.fin 1) (FVal.fin 2))))) ∧
      (copulaUs tableA (FVal.fin 2)
          (stableVs tableA (FVal.div (FVal.fin 1) (FVal.fin 2))
            (drawL constOnes (n_sample 2).toNat) (drawL constOnes (n_sample 2).toNat))
          (drawL constOnes (n_sample 2).toNat)).get? 0
        = some (tableA.exp (FVal.neg (tableA.pow (FVal.div (constOnes 0) v)
            (FVal.div (FVal.fin 1) (FVal.fin 2))))) ∧
      gumbel_copula_sample tableA constOnes constOnes constOnes constOnes 2 (FVal.fin 2)
        = .ok (gumbelFilter (2 : ℤ).toNat
            (copulaUs tableA (FVal.fin 2)
              (stableVs tableA (FVal.div (FVal.fin 1) (FVal.fin 2))
                (drawL constOnes (n_sample 2).toNat) (drawL constOnes (n_sample 2).toNat))
              (drawL constOnes (n_sample 2).toNat))
            (copulaUs tableA (FVal.fin 2)
              (stableVs tableA (FVal.div (FVal.fin 1) (FVal.fin 2))
                (drawL constOnes (n_sample 2).toNat) (drawL constOnes (n_sample 2).toNat))
              (drawL constOnes (n_sample 2).toNat)))) :=
  ⟨by decide, by decide,
    C3_candidate_formula tableA constOnes constOnes constOnes constOnes 2 (FVal.fin 2)
      (by decide) 0 (by decide)⟩

/-- C4: the stable-variate stage computed by the source equals, for every
function table, parameter and draw vectors, the CMS transform exactly as
the spec words it: the Cauchy branch `tan(W1)` when `alpha_s = 1/theta`
compares equal to 1, and otherwise
`[sin(a*W1)/cos(W1)^(1/a)] * [cos(W1-a*W1)/W2]^((1-a)/a)` applied to the
paired draws.  (The draw distributions themselves - `W1` uniform on
`(1e-10, pi - 1e-10)`, `W2` exponential of rate 1 - are modelled as
abstract streams.) -/
theorem C4_cms_matches_spec (t : Transcendentals) (theta : FVal)
    (W1 W2 : List FVal) :
    stableVs t (FVal.div (FVal.fin 1) theta) W1 W2
      = if FVal.beq (FVal.div (FVal.fin 1) theta) (FVal.fin 1)
        then W1.map t.tan
        else (W1.zip W2).map fun p =>
          cmsV_spec t (FVal.div (FVal.fin 1) theta) p.1 p.2 := rfl

/-- C5: the seeded generator is a function of (seed, n, theta): two runs
with equal seeds and equal parameters return identical batches. -/
theorem C5_deterministic (t : Transcendentals)
    (streams : ℕ → (ℕ → FVal) × (ℕ → FVal) × (ℕ → FVal) × (ℕ → FVal))
    (s1 s2 : ℕ) (n : ℤ) (theta : FVal) (h : s1 = s2) :
    seeded_copula_sample t streams s1 n theta
      = seeded_copula_sample t streams s2 n theta := by
  rw [h]

theorem C5_witness :
    (42 : ℕ) = 42 ∧
    seeded_copula_sample tableA constStreams 42 5 (FVal.fin 2)
      = seeded_copula_sample tableA constStreams 42 5 (FVal.fin 2) :=
  ⟨rfl, C5_deterministic tableA constStreams 42 42 5 (FVal.fin 2) rfl⟩

/-- C6 counterexample: the claim says every `theta < 1` fails immediately
with an `InvalidParameter` error, but the source performs no parameter
validation: at `theta = 1/2 < 1` (and `n = 3`) the call returns normally
with no error of any kind (line 45's scalar division included, since
`theta` is nonzero). -/
theorem C6_counterexample :
    FVal.ltb (FVal.fin half) (FVal.fin 1) = true ∧
    (gumbel_copula_run tableA constOnes constOnes constOnes constOnes 3
      (FVal.fin half)).isOk = true := by
  exact ⟨by decide, by with_unfolding_all decide⟩

/-- C6 (amended): no `InvalidParameter` validation exists; a call fails
exactly when `theta` equals 0.0 (line 45's Python scalar
`ZeroDivisionError`) or `n < 0` (the draw call's negative-dimension
`ValueError`).  In particular every nonzero `theta < 1`, and `n = 0`,
return normally. -/
theorem C6_amended_error_iff (t : Transcendentals)
    (W1s W2s E1s E2s : ℕ → FVal) (n : ℤ) (theta : FVal) :
    (gumbel_copula_run t W1s W2s E1s E2s n theta).isOk = false
      ↔ (FVal.beq theta (FVal.fin 0) = true ∨ n < 0) := by
  by_cases hz : FVal.beq theta (FVal.fin 0) = true
  · simp [gumbel_copula_run, hz, Except.isOk, Except.toBool]
  · by_cases hns : n_sample n < 0
    · simp [gumbel_copula_run, gumbel_copula_sample, hz, hns, Except.isOk,
        Except.toBool, (n_sample_neg_iff n).mp hns]
    · have hn : ¬ n < 0 := fun hc => hns ((n_sample_neg_iff n).mpr hc)
      simp [gumbel_copula_run, gumbel_copula_sample, hz, hns, Except.isOk,
        Except.toBool, hn]

/-- C7: requesting `n = 0` returns the empty batch with no error, and at
`theta` exactly 1 the stable-variate stage takes the Cauchy branch
`V = tan(W1)` (in which no division occurs at all). -/
theorem C7_boundary :
    (∀ (t : Transcendentals) (W1s W2s E1s E2s : ℕ → FVal) (theta : FVal),
      gumbel_copula_sample t W1s W2s E1s E2s 0 theta = .ok []) ∧
    (∀ (t : Transcendentals) (W1 W2 : List FVal),
      stableVs t (FVal.div (FVal.fin 1) (FVal.fin 1)) W1 W2 = W1.map t.tan) := by
  constructor
  · intro t W1s W2s E1s E2s theta
    have h := gumbel_ok t W1s W2s E1s E2s 0 theta (by omega)
    rw [h]
    simp [n_sample, drawL, stableVs_nil, copulaUs, gumbelFilter, validMask,
      maskFilter]
  · intro t W1 W2
    have h1 : FVal.div (FVal.fin 1) (FVal.fin 1) = FVal.fin 1 := by
      simp [FVal.div]
    rw [h1]
    simp [stableVs, FVal.beq]

/-- C8: on a nonnegative request `n` the generator draws
`int(n * 1.5)` raw candidates (the 1.5x oversampled batch, truncated to an
integer), and all candidate arrays - the four draw vectors, the stable
array `V`, and the two coordinate arrays `U1`, `U2` - have exactly that
length. -/
theorem C8_oversample_lengths (t : Transcendentals)
    (W1s W2s E1s E2s : ℕ → FVal) (n : ℤ) (theta : FVal) (h : 0 ≤ n) :
    n_sample n = Int.tdiv (3 * n) 2 ∧
    (drawL W1s (n_sample n).toNat).length = (n_sample n).toNat ∧
    (drawL W2s (n_sample n).toNat).length = (n_sample n).toNat ∧
    (drawL E1s (n_sample n).toNat).length = (n_sample n).toNat ∧
    (drawL E2s (n_sample n).toNat).length = (n_sample n).toNat ∧
    (stableVs t (FVal.div (FVal.fin 1) theta)
        (drawL W1s (n_sample n).toNat) (drawL W2s (n_sample n).toNat)).length
      = (n_sample n).toNat ∧
    (copulaUs t theta
        (stableVs t (FVal.div (FVal.fin 1) theta)
          (drawL W1s (n_sample n).toNat) (drawL W2s (n_sample n).toNat))
        (drawL E1s (n_sample n).toNat)).length = (n_sample n).toNat ∧
    (copulaUs t theta
        (stableVs t (FVal.div (FVal.fin 1) theta)
          (drawL W1s (n_sample n).toNat) (drawL W2s (n_sample n).toNat))
        (drawL E2s (n_sample n).toNat)).length = (n_sample n).toNat := by
  have hV : (stableVs t (FVal.div (FVal.fin 1) theta)
      (drawL W1s (n_sample n).toNat) (drawL W2s (n_sample n).toNat)).length
      = (n_sample n).toNat := by
    rw [length_stableVs t (FVal.div (FVal.fin 1) theta) _ _
      (by rw [length_drawL, length_drawL]), length_drawL]
  refine ⟨rfl, length_drawL _ _, length_drawL _ _, length_drawL _ _,
    length_drawL _ _, hV, ?_, ?_⟩
  · rw [length_copulaUs t theta _ _ (by rw [length_drawL, hV]), length_drawL]
  · rw [length_copulaUs t theta _ _ (by rw [length_drawL, hV]), length_drawL]

theorem C8_witness :
    (0 : ℤ) ≤ 5 ∧
    (n_sample 5 = Int.tdiv (3 * 5) 2 ∧
    (drawL constOnes (n_sample 5).toNat).length = (n_sample 5).toNat ∧
    (drawL constOnes (n_sample 5).toNat).length = (n_sample 5).toNat ∧
    (drawL constOnes (n_sample 5).toNat).length = (n_sample 5).toNat ∧
    (drawL constOnes (n_sample 5).toNat).length = (n_sample 5).toNat ∧
    (stableVs tableA (FVal.div (FVal.fin 1) (FVal.fin 2))
        (drawL constOnes (n_sample 5).toNat) (drawL constOnes (n_sample 5).toNat)).length
      = (n_sample 5).toNat ∧
    (copulaUs tableA (FVal.fin 2)
        (stableVs tableA (FVal.div (FVal.fin 1) (FVal.fin 2))
          (drawL constOnes (n_sample 5).toNat) (drawL constOnes (n_sample 5).toNat))
        (drawL constOnes (n_sample 5).toNat)).length = (n_sample 5).toNat ∧
    (copulaUs tableA (FVal.fin 2)
        (stableVs tableA (FVal.div (FVal.fin 1) (FVal.fin 2))
          (drawL constOnes (n_sample 5).toNat) (drawL constOnes (n_sample 5).toNat))
        (drawL constOnes (n_sample 5).toNat)).length = (n_sample 5).toNat) :=
  ⟨by decide,
    C8_oversample_lengths tableA constOnes constOnes constOnes constOnes 5
      (FVal.fin 2) (by decide)⟩

/-- C9: on a nonnegative request with positive `theta` the generator
succeeds and its batch is a list of coordinate pairs whose row count is
the minimum of `n` and the number of `true` entries of the validity mask
over the oversampled candidate arrays; in particular it never exceeds
`n`. -/
theorem C9_row_count (t : Transcendentals)
    (W1s W2s E1s E2s : ℕ → FVal) (n : ℤ) (theta : FVal) (h : 0 ≤ n)
    (htheta : FVal.ltb (FVal.fin 0) theta = true) :
    ∃ rows : List (FVal × FVal),
      gumbel_copula_sample t W1s W2s E1s E2s n theta = .ok rows ∧
      rows.length
        = min n.toNat
            ((validMask
              (copulaUs t theta
                (stableVs t (FVal.div (FVal.fin 1) theta)
                  (drawL W1s (n_sample n).toNat) (drawL W2s (n_sample n).toNat))
                (drawL E1s (n_sample n).toNat))
              (copulaUs t theta
                (stableVs t (FVal.div (FVal.fin 1) theta)
                  (drawL W1s (n_sample n).toNat) (drawL W2s (n_sample n).toNat))
                (drawL E2s (n_sample n).toNat))).count true) ∧
      rows.length ≤ n.toNat := by
  have hV : (stableVs t (FVal.div (FVal.fin 1) theta)
      (drawL W1s (n_sample n).toNat) (drawL W2s (n_sample n).toNat)).length
      = (n_sample n).toNat := by
    rw [length_stableVs t (FVal.div (FVal.fin 1) theta) _ _
      (by rw [length_drawL, length_drawL]), length_drawL]
  have hlen : (copulaUs t theta
      (stableVs t (FVal.div (FVal.fin 1) theta)
        (drawL W1s (n_sample n).toNat) (drawL W2s (n_sample n).toNat))
      (drawL E1s (n_sample n).toNat)).length
      = (copulaUs t theta
        (stableVs t (FVal.div (FVal.fin 1) theta)
          (drawL W1s (n_sample n).toNat) (drawL W2s (n_sample n).toNat))
        (drawL E2s (n_sample n).toNat)).length := by
    rw [length_copulaUs t theta _ _ (by rw [length_drawL, hV]),
      length_copulaUs t theta _ _ (by rw [length_drawL, hV]),
      length_drawL, length_drawL]
  refine ⟨_, gumbel_ok t W1s W2s E1s E2s n theta h, ?_, ?_⟩
  · rw [gumbelFilter_eq_filter_take _ _ _ hlen, List.length_take,
      count_true_validMask, List.countP_eq_length_filter]
  · rw [gumbelFilter_eq_filter_take _ _ _ hlen, List.length_take]
    exact min_le_left _ _

theorem C9_witness :
    (0 : ℤ) ≤ 2 ∧ FVal.ltb (FVal.fin 0) (FVal.fin 2) = true ∧
    (∃ rows : List (FVal × FVal),
      gumbel_copula_sample tableA constOnes constOnes constOnes constOnes 2
          (FVal.fin 2) = .ok rows ∧
      rows.length
        = min (2 : ℤ).toNat
            ((validMask
              (copulaUs tableA (FVal.fin 2)
                (stableVs tableA (FVal.div (FVal.fin 1) (FVal.fin 2))
                  (drawL constOnes (n_sample 2).toNat) (drawL constOnes (n_sample 2).toNat))
                (drawL constOnes (n_sample 2).toNat))
              (copulaUs tableA (FVal.fin 2)
                (stableVs tableA (FVal.div (FVal.fin 1) (FVal.fin 2))
                  (drawL constOnes (n_sample 2).toNat) (drawL constOnes (n_sample 2).toNat))
                (drawL constOnes (n_sample 2).toNat))).count true) ∧
      rows.length ≤ (2 : ℤ).toNat) :=
  ⟨by decide, by decide,
    C9_row_count tableA constOnes constOnes constOnes constOnes 2 (FVal.fin 2)
      (by decide) (by decide)⟩

/-- C10: the two coordinate arrays are filtered by one shared boolean mask
and then truncated, which is exactly filtering the zipped pair list by the
validity predicate and truncating: every returned pair pairs the two
coordinates of one common candidate index (so both read the same stable
variate), and the surviving pairs keep their original draw order (the
output is a sublist of the candidate pair list). -/
theorem C10_shared_mask (n : ℕ) (U1 U2 : List FVal)
    (h : U1.length = U2.length) :
    gumbelFilter n U1 U2
      = ((U1.zip U2).filter fun p => validPair p.1 p.2).take n ∧
    (gumbelFilter n U1 U2).Sublist (U1.zip U2) := by
  refine ⟨gumbelFilter_eq_filter_take n U1 U2 h, ?_⟩
  rw [gumbelFilter_eq_filter_take n U1 U2 h]
  exact (List.take_sublist _ _).trans (List.filter_sublist _)

theorem C10_witness :
    ([FVal.fin half, FVal.nan] : List FVal).length
      = ([FVal.fin half, FVal.fin half] : List FVal).length ∧
    (gumbelFilter 1 [FVal.fin half, FVal.nan] [FVal.fin half, FVal.fin half]
      = (([FVal.fin half, FVal.nan].zip [FVal.fin half, FVal.fin half]).filter
          fun p => validPair p.1 p.2).take 1 ∧
    (gumbelFilter 1 [FVal.fin half, FVal.nan]
        [FVal.fin half, FVal.fin half]).Sublist
      ([FVal.fin half, FVal.nan].zip [FVal.fin half, FVal.fin half])) :=
  ⟨by decide,
    C10_shared_mask 1 [FVal.fin half, FVal.nan] [FVal.fin half, FVal.fin half]
      (by decide)⟩
